import Mathlib

/-!
Verification of the cardlessid issuer-registry contract.

This development shallowly embeds the PyTeal issuer registry
(app/contracts/issuer-registry.py, the variant whose behaviour the spec's
operation table describes) at the byte level: box storage is an association
list from byte-string keys to byte-string values, 8-byte big-endian integer
encoding mirror the TEAL itob/btoi opcodes, and every TEAL opcode that can
fail at run time (extract, substring, btoi on long inputs, uint64 overflow)
is modelled as an explicit error.  A failed application call rolls back all
state, so every operation is a function from state to Except over states.
The query operations of the Beaker variant
(app/contracts/issuer-registry-beaker.py) are also embedded, because they
behave differently on absent records.
-/

/-- Byte strings are lists of naturals (each byte is below 256 in any value
the AVM produces; the definitions do not depend on this). -/
abbrev Bytes := List Nat

/-- TEAL itob: 8-byte big-endian encoding of a uint64. -/
def itob (n : Nat) : Bytes :=
  [n / 2 ^ 56 % 256, n / 2 ^ 48 % 256, n / 2 ^ 40 % 256, n / 2 ^ 32 % 256,
   n / 2 ^ 24 % 256, n / 2 ^ 16 % 256, n / 2 ^ 8 % 256, n % 256]

/-- TEAL btoi: big-endian decoding of a byte string. -/
def btoi (bs : Bytes) : Nat :=
  bs.foldl (fun a b => a * 256 + b) 0

/-- TEAL extract(v, s, l): the l bytes of v starting at offset s; the opcode
fails the program when s + l exceeds the length of v, modelled as none. -/
def extractB (v : Bytes) (s l : Nat) : Option Bytes :=
  if s + l ≤ v.length then some ((v.drop s).take l) else none

/-- Box storage: an association list from keys to values. -/
abbrev BoxStore := List (Bytes × Bytes)

/-- App.box_get: the value stored under a key, if any. -/
def boxGet : BoxStore → Bytes → Option Bytes
  | [], _ => none
  | (k', v') :: rest, k => if k' = k then some v' else boxGet rest k

/-- App.box_put: store a value under a key, replacing any previous value. -/
def boxPut : BoxStore → Bytes → Bytes → BoxStore
  | [], k, v => [(k, v)]
  | (k', v') :: rest, k, v =>
      if k' = k then (k, v) :: rest else (k', v') :: boxPut rest k v

/-- The bytes of the string meta: used as the metadata key namespace. -/
def metaPrefix : Bytes := [109, 101, 116, 97, 58]

/-- The bytes of the string cred: used as the credential key namespace. -/
def credPrefix : Bytes := [99, 114, 101, 100, 58]

/-- Metadata box key: meta: followed by the issuer address. -/
def metaKey (addr : Bytes) : Bytes := metaPrefix ++ addr

/-- Credential box key: cred: followed by the credential id. -/
def credKey (cid : Bytes) : Bytes := credPrefix ++ cid

/-- The bytes of http with colon and two slashes, the first URL prefix. -/
def httpBytes : Bytes := [104, 116, 116, 112, 58, 47, 47]

/-- The bytes of https with colon and two slashes, the second URL prefix. -/
def httpsBytes : Bytes := [104, 116, 116, 112, 115, 58, 47, 47]

/-- The failure taxonomy of the spec, refined with the run-time failure
modes of the TEAL program itself: rangeError is an extract/substring/btoi
opcode failing dynamically, overflow is uint64 addition overflowing, and
rejected is an explicit Reject() in a query. All of them make the
surrounding application call fail with no state change. -/
inductive Err where
  | unauthorized
  | alreadyExists
  | notFound
  | validationFailedName
  | validationFailedUrl
  | rangeError
  | overflow
  | rejected
deriving DecidableEq, Repr

/-- The transaction context the host supplies to every call: the sender
address and the current host timestamp (Global.latest_timestamp). -/
structure Ctx where
  sender : Bytes
  now : Nat
deriving DecidableEq, Repr

/-- Global state plus box storage of the registry application. -/
structure RegistryState where
  admin : Bytes
  issuer_count : Nat
  boxes : BoxStore
deriving DecidableEq, Repr

/-- on_create: admin is the creator, issuer_count is zero, no boxes. -/
def initState (creator : Bytes) : RegistryState :=
  { admin := creator, issuer_count := 0, boxes := [] }

/-- validate_name from the source: name length between 3 and 64. -/
def validate_name (name : Bytes) : Bool :=
  decide (3 ≤ name.length) && decide (name.length ≤ 64)

/-- validate_url from the source: Substring(url,0,7) = http prefix or
Substring(url,0,8) = https prefix (both substrings are evaluated, so a URL
shorter than 8 bytes makes the program fail, modelled as none), and the
length is between 10 and 256. -/
def validate_url (url : Bytes) : Option Bool :=
  match extractB url 0 7, extractB url 0 8 with
  | some p7, some p8 =>
      some ((decide (p7 = httpBytes) || decide (p8 = httpsBytes)) &&
            (decide (10 ≤ url.length) && decide (url.length ≤ 256)))
  | _, _ => none

/-- is_active_issuer from the source: the box for the address exists and its
revoked_at field (bytes 8..16) decodes to zero; absent box means inactive;
a stored value shorter than 16 bytes makes the extract opcode fail. -/
def is_active_issuer (boxes : BoxStore) (addr : Bytes) : Option Bool :=
  match boxGet boxes addr with
  | some v =>
      match extractB v 8 8 with
      | some r => some (decide (btoi r = 0))
      | none => none
  | none => some false

/-- add_issuer from the source, with the source's check order: validate the
name, validate the URL, require admin or active issuer, require that no box
exists for the address, then write the issuer box, the metadata box, and
increment issuer_count (uint64 addition fails on overflow, rolling the call
back). -/
def add_issuer (st : RegistryState) (ctx : Ctx)
    (issuer_address name full_name website_url organization_type jurisdiction : Bytes) :
    Except Err RegistryState :=
  if validate_name name = false then .error .validationFailedName else
  match validate_url website_url with
  | none => .error .rangeError
  | some false => .error .validationFailedUrl
  | some true =>
    match is_active_issuer st.boxes ctx.sender with
    | none => .error .rangeError
    | some active =>
      if ctx.sender = st.admin ∨ active = true then
        match boxGet st.boxes issuer_address with
        | some _ => .error .alreadyExists
        | none =>
          if st.issuer_count + 1 < 2 ^ 64 then
            .ok { admin := st.admin
                , issuer_count := st.issuer_count + 1
                , boxes := boxPut
                    (boxPut st.boxes issuer_address
                      (itob ctx.now ++ itob 0 ++ itob 0 ++ ctx.sender))
                    (metaKey issuer_address)
                    (itob ctx.now ++ name ++ full_name ++ website_url ++
                      organization_type ++ jurisdiction) }
          else .error .overflow
      else .error .unauthorized

/-- revoke_issuer from the source: admin only, the box must exist, then the
value is rebuilt as old authorized_at bytes, itob of now, itob of the btoi
of the flag argument (btoi fails on arguments longer than 8 bytes), and the
old vouched_by bytes; extracts fail on values shorter than 56 bytes. -/
def revoke_issuer (st : RegistryState) (ctx : Ctx)
    (issuer_address revoke_all_prior : Bytes) : Except Err RegistryState :=
  if ctx.sender = st.admin then
    match boxGet st.boxes issuer_address with
    | none => .error .notFound
    | some v =>
      match extractB v 0 8, extractB v 24 32 with
      | some auth_bytes, some vouched_bytes =>
        if revoke_all_prior.length ≤ 8 then
          let newVal := auth_bytes ++ itob ctx.now ++
            itob (btoi revoke_all_prior) ++ vouched_bytes
          .ok { st with boxes := boxPut st.boxes issuer_address newVal }
        else .error .rangeError
      | _, _ => .error .rangeError
  else .error .unauthorized

/-- reinstate_issuer from the source: admin only, the box must exist, then
the value is rebuilt as itob of now (a fresh authorized_at), itob 0 twice
(revoked_at and revoke_all_prior cleared), and the old vouched_by bytes. -/
def reinstate_issuer (st : RegistryState) (ctx : Ctx)
    (issuer_address : Bytes) : Except Err RegistryState :=
  if ctx.sender = st.admin then
    match boxGet st.boxes issuer_address with
    | none => .error .notFound
    | some v =>
      match extractB v 24 32 with
      | some vouched_bytes =>
          let newVal := itob ctx.now ++ itob 0 ++ itob 0 ++ vouched_bytes
          .ok { st with boxes := boxPut st.boxes issuer_address newVal }
      | none => .error .rangeError
  else .error .unauthorized

/-- revoke_credential from the source: admin only, then unconditionally
write (create or overwrite) the credential box. -/
def revoke_credential (st : RegistryState) (ctx : Ctx)
    (credential_id issuer_address : Bytes) : Except Err RegistryState :=
  if ctx.sender = st.admin then
    let newVal := itob ctx.now ++ issuer_address
    .ok { st with boxes := boxPut st.boxes (credKey credential_id) newVal }
  else .error .unauthorized

/-- update_metadata from the source, with the source's check order: admin
first, then name validation, then URL validation, then the issuer box must
exist, then the metadata box is overwritten. -/
def update_metadata (st : RegistryState) (ctx : Ctx)
    (issuer_address name full_name website_url organization_type jurisdiction : Bytes) :
    Except Err RegistryState :=
  if ctx.sender = st.admin then
    if validate_name name = false then .error .validationFailedName else
    match validate_url website_url with
    | none => .error .rangeError
    | some false => .error .validationFailedUrl
    | some true =>
      match boxGet st.boxes issuer_address with
      | none => .error .notFound
      | some _ =>
          let newVal := itob ctx.now ++ name ++ full_name ++ website_url ++
            organization_type ++ jurisdiction
          .ok { st with boxes := boxPut st.boxes (metaKey issuer_address) newVal }
  else .error .unauthorized

/-- query_issuer from the primary source file: log and approve when the box
exists, Reject() otherwise. -/
def query_issuer (boxes : BoxStore) (issuer_address : Bytes) : Except Err Bytes :=
  match boxGet boxes issuer_address with
  | some v => .ok v
  | none => .error .rejected

/-- query_credential from the primary source file: log and approve when the
box exists, Reject() otherwise. -/
def query_credential (boxes : BoxStore) (credential_id : Bytes) : Except Err Bytes :=
  match boxGet boxes (credKey credential_id) with
  | some v => .ok v
  | none => .error .rejected

/-- query_metadata from the primary source file: log and approve when the
box exists, Reject() otherwise. -/
def query_metadata (boxes : BoxStore) (issuer_address : Bytes) : Except Err Bytes :=
  match boxGet boxes (metaKey issuer_address) with
  | some v => .ok v
  | none => .error .rejected

namespace Beaker

/-- query_issuer of the Beaker variant: returns the stored bytes, or the
empty byte string when the box is absent; the call always approves. -/
def query_issuer (boxes : BoxStore) (issuer_address : Bytes) : Bytes :=
  (boxGet boxes issuer_address).getD []

/-- query_credential of the Beaker variant: stored bytes or empty. -/
def query_credential (boxes : BoxStore) (credential_id : Bytes) : Bytes :=
  (boxGet boxes (credKey credential_id)).getD []

/-- query_metadata of the Beaker variant: stored bytes or empty. -/
def query_metadata (boxes : BoxStore) (issuer_address : Bytes) : Bytes :=
  (boxGet boxes (metaKey issuer_address)).getD []

end Beaker

/-- The operations of the registry, each routed by the dispatcher. -/
inductive Op where
  | addIssuerOp (addr name full_name url org jur : Bytes)
  | revokeIssuerOp (addr flagArg : Bytes)
  | reinstateIssuerOp (addr : Bytes)
  | revokeCredentialOp (credId addr : Bytes)
  | updateMetadataOp (addr name full_name url org jur : Bytes)
  | queryIssuerOp (addr : Bytes)
  | queryCredentialOp (credId : Bytes)
  | queryMetadataOp (addr : Bytes)
deriving DecidableEq, Repr

/-- Run one dispatched call, producing the next state or a failure. -/
def runOp (st : RegistryState) (ctx : Ctx) : Op → Except Err RegistryState
  | .addIssuerOp a n f u o j => add_issuer st ctx a n f u o j
  | .revokeIssuerOp a fl => revoke_issuer st ctx a fl
  | .reinstateIssuerOp a => reinstate_issuer st ctx a
  | .revokeCredentialOp c a => revoke_credential st ctx c a
  | .updateMetadataOp a n f u o j => update_metadata st ctx a n f u o j
  | .queryIssuerOp a => (query_issuer st.boxes a).map fun _ => st
  | .queryCredentialOp c => (query_credential st.boxes c).map fun _ => st
  | .queryMetadataOp a => (query_metadata st.boxes a).map fun _ => st

/-- The state after a call: a failed call rolls back to the prior state. -/
def applyOp (st : RegistryState) (ctx : Ctx) (op : Op) : RegistryState :=
  match runOp st ctx op with
  | .ok st' => st'
  | .error _ => st

/-- The state after a sequence of dispatched calls. -/
def execTrace (st : RegistryState) : List (Ctx × Op) → RegistryState
  | [] => st
  | (c, o) :: rest => execTrace (applyOp st c o) rest

/-- The authorized_at field of a stored issuer value: bytes 0..8. -/
def issuerAuth (v : Bytes) : Nat := btoi (v.take 8)

/-- The revoked_at field of a stored issuer value: bytes 8..16. -/
def issuerRev (v : Bytes) : Nat := btoi ((v.drop 8).take 8)

/-- The revoke_all_prior field of a stored issuer value: bytes 16..24. -/
def issuerFlag (v : Bytes) : Nat := btoi ((v.drop 16).take 8)

/-- The vouched_by field of a stored issuer value: bytes 24..56. -/
def issuerVouchedBy (v : Bytes) : Bytes := (v.drop 24).take 32

/-- Well-formedness of one host call, all guaranteed by the AVM: the
timestamp is a uint64, the sender is a 32-byte address, address arguments
of the operations that write under them are 32 bytes, and a credential id
is not 27 bytes long (so the 5-byte prefixed credential key is never
32 bytes long and cannot alias an issuer address key; real credential ids
are 32-byte hashes). -/
def WFStepB (c : Ctx) (op : Op) : Bool :=
  decide (c.now < 2 ^ 64) && decide (c.sender.length = 32) &&
  (match op with
   | .addIssuerOp a _ _ _ _ _ => decide (a.length = 32)
   | .updateMetadataOp a _ _ _ _ _ => decide (a.length = 32)
   | .revokeCredentialOp i _ => decide (i.length ≠ 27)
   | _ => true)

/-- Well-formedness of a trace starting at clock t: every step is
well-formed and the host timestamps are monotonically non-decreasing. -/
def WFTraceB : Nat → List (Ctx × Op) → Bool
  | _, [] => true
  | t, (c, o) :: rest => decide (t ≤ c.now) && WFStepB c o && WFTraceB c.now rest

/-- Concrete 32-byte admin address used in witnesses. -/
def exA : Bytes := List.replicate 32 1

/-- Concrete 32-byte issuer address used in witnesses. -/
def exX : Bytes := List.replicate 32 2

/-- Concrete 32-byte non-admin address used in witnesses. -/
def exB : Bytes := List.replicate 32 3

/-- Concrete valid name bytes (the string abc). -/
def exName : Bytes := [97, 98, 99]

/-- Concrete full-name bytes. -/
def exFull : Bytes := [97, 98, 99, 100]

/-- Concrete valid URL bytes (an https URL of length 13). -/
def exUrl : Bytes := [104, 116, 116, 112, 115, 58, 47, 47, 101, 120, 46, 99, 111]

/-- Concrete organization-type bytes. -/
def exOrg : Bytes := [103, 111, 118]

/-- Concrete jurisdiction bytes. -/
def exJur : Bytes := [85, 83]

/-- The admin context at timestamp 5. -/
def exCtxA5 : Ctx := { sender := exA, now := 5 }

/-- The state after the admin adds issuer exX at timestamp 5. -/
def exSt1 : RegistryState :=
  applyOp (initState exA) exCtxA5 (.addIssuerOp exX exName exFull exUrl exOrg exJur)

/-! Helper lemmas about the byte-level primitives and the store. -/

theorem itob_length (n : Nat) : (itob n).length = 8 := rfl

theorem btoi_itob {n : Nat} (h : n < 2 ^ 64) : btoi (itob n) = n := by
  simp only [btoi, itob, List.foldl]
  omega

theorem btoi_itob_zero : btoi (itob 0) = 0 := by decide

theorem mem_boxPut {bs : BoxStore} {k v : Bytes} {kv : Bytes × Bytes}
    (h : kv ∈ boxPut bs k v) : kv = (k, v) ∨ kv ∈ bs := by
  induction bs with
  | nil => simpa [boxPut] using h
  | cons hd tl ih =>
      rcases hd with ⟨k', v'⟩
      simp only [boxPut] at h
      split at h
      · rcases List.mem_cons.mp h with h | h
        · exact Or.inl h
        · exact Or.inr (List.mem_cons_of_mem _ h)
      · rcases List.mem_cons.mp h with h | h
        · exact Or.inr (h ▸ List.mem_cons_self _ _)
        · rcases ih h with h | h
          · exact Or.inl h
          · exact Or.inr (List.mem_cons_of_mem _ h)

theorem boxGet_boxPut_same (bs : BoxStore) (k v : Bytes) :
    boxGet (boxPut bs k v) k = some v := by
  induction bs with
  | nil => simp [boxPut, boxGet]
  | cons hd tl ih =>
      rcases hd with ⟨k', v'⟩
      by_cases hk : k' = k
      · simp [boxPut, boxGet, hk]
      · simp [boxPut, boxGet, hk, ih]

theorem boxGet_boxPut_ne (bs : BoxStore) {k k' : Bytes} (v : Bytes) (h : k ≠ k') :
    boxGet (boxPut bs k v) k' = boxGet bs k' := by
  induction bs with
  | nil => simp [boxPut, boxGet, h]
  | cons hd tl ih =>
      rcases hd with ⟨k₀, v₀⟩
      by_cases hk : k₀ = k
      · subst hk
        simp [boxPut, boxGet, h]
      · by_cases hk' : k₀ = k'
        · simp [boxPut, boxGet, hk, hk', Ne.symm h]
        · simp [boxPut, boxGet, hk, hk', ih]

theorem metaKey_length (a : Bytes) : (metaKey a).length = 5 + a.length := by
  simp [metaKey, metaPrefix]
  omega

theorem credKey_length (c : Bytes) : (credKey c).length = 5 + c.length := by
  simp [credKey, credPrefix]
  omega

theorem metaKey_ne_self (a : Bytes) : metaKey a ≠ a := by
  intro h
  have := congrArg List.length h
  rw [metaKey_length] at this
  omega

theorem extractB_eq_some {v w : Bytes} {s l : Nat} :
    extractB v s l = some w ↔ s + l ≤ v.length ∧ w = (v.drop s).take l := by
  simp only [extractB]
  split
  · simp only [Option.some.injEq]
    constructor
    · intro h
      exact ⟨by assumption, h.symm⟩
    · intro h
      exact h.2.symm
  · rename_i hgt
    constructor
    · intro h
      exact Option.noConfusion h
    · rintro ⟨hle, -⟩
      exact absurd hle hgt

theorem extractB_length {v w : Bytes} {s l : Nat} (h : extractB v s l = some w) :
    w.length = l := by
  rcases extractB_eq_some.mp h with ⟨hle, rfl⟩
  simp only [List.length_take, List.length_drop]
  omega

/-! Success-shape inversion lemmas for the mutating operations. -/

theorem add_issuer_ok {st : RegistryState} {ctx : Ctx}
    {a n f u o j : Bytes} {st' : RegistryState}
    (h : add_issuer st ctx a n f u o j = .ok st') :
    validate_name n = true ∧ validate_url u = some true ∧
    (∃ act, is_active_issuer st.boxes ctx.sender = some act ∧
      (ctx.sender = st.admin ∨ act = true)) ∧
    boxGet st.boxes a = none ∧ st.issuer_count + 1 < 2 ^ 64 ∧
    st' = { admin := st.admin
          , issuer_count := st.issuer_count + 1
          , boxes := boxPut
              (boxPut st.boxes a (itob ctx.now ++ itob 0 ++ itob 0 ++ ctx.sender))
              (metaKey a)
              (itob ctx.now ++ n ++ f ++ u ++ o ++ j) } := by
  unfold add_issuer at h
  split at h
  · exact absurd h (by simp)
  · rename_i hname
    split at h
    · exact absurd h (by simp)
    · exact absurd h (by simp)
    · rename_i hurl
      split at h
      · exact absurd h (by simp)
      · rename_i act hact
        split at h
        · rename_i hauth
          split at h
          · exact absurd h (by simp)
          · rename_i hnew
            split at h
            · rename_i hcount
              refine ⟨by revert hname; cases validate_name n <;> simp, hurl,
                ⟨act, hact, hauth⟩, hnew, hcount, ?_⟩
              exact (Except.ok.injEq _ _).mp h.symm
            · exact absurd h (by simp)
        · exact absurd h (by simp)

theorem revoke_issuer_ok {st : RegistryState} {ctx : Ctx}
    {a fl : Bytes} {st' : RegistryState}
    (h : revoke_issuer st ctx a fl = .ok st') :
    ctx.sender = st.admin ∧ fl.length ≤ 8 ∧
    ∃ v, boxGet st.boxes a = some v ∧ 56 ≤ v.length ∧
      st' = { st with boxes := boxPut st.boxes a (v.take 8 ++ itob ctx.now ++ itob (btoi fl) ++ (v.drop 24).take 32) } := by
  unfold revoke_issuer at h
  split at h
  · rename_i hadmin
    split at h
    · exact absurd h (by simp)
    · rename_i v hget
      split at h
      · rename_i ab vb hab hvb
        split at h
        · rename_i hfl
          rcases extractB_eq_some.mp hab with ⟨hle1, rfl⟩
          rcases extractB_eq_some.mp hvb with ⟨hle2, rfl⟩
          refine ⟨hadmin, hfl, v, hget, by omega, ?_⟩
          have := (Except.ok.injEq _ _).mp h.symm
          rw [this]
          simp
        · exact absurd h (by simp)
      · exact absurd h (by simp)
  · exact absurd h (by simp)

theorem reinstate_issuer_ok {st : RegistryState} {ctx : Ctx}
    {a : Bytes} {st' : RegistryState}
    (h : reinstate_issuer st ctx a = .ok st') :
    ctx.sender = st.admin ∧
    ∃ v, boxGet st.boxes a = some v ∧ 56 ≤ v.length ∧
      st' = { st with boxes := boxPut st.boxes a (itob ctx.now ++ itob 0 ++ itob 0 ++ (v.drop 24).take 32) } := by
  unfold reinstate_issuer at h
  split at h
  · rename_i hadmin
    split at h
    · exact absurd h (by simp)
    · rename_i v hget
      split at h
      · rename_i vb hvb
        rcases extractB_eq_some.mp hvb with ⟨hle, rfl⟩
        refine ⟨hadmin, v, hget, by omega, ?_⟩
        have := (Except.ok.injEq _ _).mp h.symm
        rw [this]
      · exact absurd h (by simp)
  · exact absurd h (by simp)

theorem revoke_credential_ok {st : RegistryState} {ctx : Ctx}
    {cid a : Bytes} {st' : RegistryState}
    (h : revoke_credential st ctx cid a = .ok st') :
    ctx.sender = st.admin ∧
    st' = { st with boxes := boxPut st.boxes (credKey cid) (itob ctx.now ++ a) } := by
  unfold revoke_credential at h
  split at h
  · rename_i hadmin
    exact ⟨hadmin, (Except.ok.injEq _ _).mp h.symm⟩
  · exact absurd h (by simp)

theorem update_metadata_ok {st : RegistryState} {ctx : Ctx}
    {a n f u o j : Bytes} {st' : RegistryState}
    (h : update_metadata st ctx a n f u o j = .ok st') :
    ctx.sender = st.admin ∧ validate_name n = true ∧ validate_url u = some true ∧
    (∃ v, boxGet st.boxes a = some v) ∧
    st' = { st with boxes := boxPut st.boxes (metaKey a) (itob ctx.now ++ n ++ f ++ u ++ o ++ j) } := by
  unfold update_metadata at h
  split at h
  · rename_i hadmin
    split at h
    · exact absurd h (by simp)
    · rename_i hname
      split at h
      · exact absurd h (by simp)
      · exact absurd h (by simp)
      · rename_i hurl
        split at h
        · exact absurd h (by simp)
        · rename_i v hget
          refine ⟨hadmin, by revert hname; cases validate_name n <;> simp, hurl,
            ⟨v, hget⟩, (Except.ok.injEq _ _).mp h.symm⟩
  · exact absurd h (by simp)

theorem applyOp_query_issuer (st : RegistryState) (ctx : Ctx) (a : Bytes) :
    applyOp st ctx (.queryIssuerOp a) = st := by
  unfold applyOp runOp query_issuer
  rcases hres : boxGet st.boxes a with _ | v <;> simp [hres, Except.map]

theorem applyOp_query_credential (st : RegistryState) (ctx : Ctx) (c : Bytes) :
    applyOp st ctx (.queryCredentialOp c) = st := by
  unfold applyOp runOp query_credential
  rcases hres : boxGet st.boxes (credKey c) with _ | v <;> simp [hres, Except.map]

theorem applyOp_query_metadata (st : RegistryState) (ctx : Ctx) (a : Bytes) :
    applyOp st ctx (.queryMetadataOp a) = st := by
  unfold applyOp runOp query_metadata
  rcases hres : boxGet st.boxes (metaKey a) with _ | v <;> simp [hres, Except.map]

theorem boxGet_mem {bs : BoxStore} {k v : Bytes} (h : boxGet bs k = some v) :
    (k, v) ∈ bs := by
  induction bs with
  | nil => simp [boxGet] at h
  | cons hd tl ih =>
      rcases hd with ⟨k', v'⟩
      simp only [boxGet] at h
      split at h
      · rename_i hk
        obtain rfl : v' = v := by injection h
        subst hk
        exact List.mem_cons_self _ _
      · exact List.mem_cons_of_mem _ (ih h)

/-- Decomposition of a 56-byte issuer value built from three 8-byte chunks
and a 32-byte chunk into its four fields. -/
theorem issuer_fields_concat {a b c s : Bytes}
    (ha : a.length = 8) (hb : b.length = 8) (hc : c.length = 8) (hs : s.length = 32) :
    issuerAuth (a ++ b ++ c ++ s) = btoi a ∧
    issuerRev (a ++ b ++ c ++ s) = btoi b ∧
    issuerFlag (a ++ b ++ c ++ s) = btoi c ∧
    issuerVouchedBy (a ++ b ++ c ++ s) = s ∧
    (a ++ b ++ c ++ s).length = 56 := by
  have h1 : a ++ b ++ c ++ s = a ++ (b ++ (c ++ s)) := by
    simp only [List.append_assoc]
  have h2 : a ++ b ++ c ++ s = (a ++ b) ++ (c ++ s) := by
    simp only [List.append_assoc]
  refine ⟨?_, ?_, ?_, ?_, ?_⟩
  · unfold issuerAuth
    rw [h1, List.take_left' ha]
  · unfold issuerRev
    rw [h1, List.drop_left' ha, List.take_left' hb]
  · unfold issuerFlag
    rw [h2, List.drop_left' (by simp [ha, hb]), List.take_left' hc]
  · unfold issuerVouchedBy
    rw [List.drop_left' (by simp [ha, hb, hc]), ← hs, List.take_length]
  · simp [ha, hb, hc, hs]

/-- The inductive invariant: every box whose key is a 32-byte address holds
a 56-byte value whose authorized_at is at most the current clock and whose
revoked_at is zero or at least authorized_at. -/
def InvOK (clock : Nat) (st : RegistryState) : Prop :=
  ∀ kv ∈ st.boxes, kv.1.length = 32 →
    kv.2.length = 56 ∧ issuerAuth kv.2 ≤ clock ∧
    (issuerRev kv.2 = 0 ∨ issuerAuth kv.2 ≤ issuerRev kv.2)

theorem invOK_mono {c c' : Nat} {st : RegistryState}
    (h : InvOK c st) (hc : c ≤ c') : InvOK c' st := by
  intro kv hm hl
  rcases h kv hm hl with ⟨h1, h2, h3⟩
  exact ⟨h1, le_trans h2 hc, h3⟩

theorem invOK_step {c : Nat} {st : RegistryState} {ctx : Ctx} {op : Op}
    (hInv : InvOK c st) (hc : c ≤ ctx.now) (hwf : WFStepB ctx op = true) :
    InvOK ctx.now (applyOp st ctx op) := by
  have hmono : InvOK ctx.now st := invOK_mono hInv hc
  cases op with
  | addIssuerOp a n f u o j =>
      simp only [WFStepB, Bool.and_eq_true, decide_eq_true_eq] at hwf
      obtain ⟨⟨hnow, hsender⟩, haddr⟩ := hwf
      rcases hres : add_issuer st ctx a n f u o j with e | st'
      · simp only [applyOp, runOp, hres]
        exact hmono
      · simp only [applyOp, runOp, hres]
        rcases add_issuer_ok hres with ⟨-, -, -, -, -, rfl⟩
        intro kv hm hl
        rcases mem_boxPut hm with rfl | hm'
        · exfalso
          simp only at hl
          rw [metaKey_length] at hl
          omega
        · rcases mem_boxPut hm' with rfl | hm''
          · simp only
            rcases issuer_fields_concat (itob_length ctx.now) (itob_length 0)
              (itob_length 0) hsender with ⟨hA, hR, -, -, hL⟩
            refine ⟨hL, ?_, Or.inl ?_⟩
            · rw [hA, btoi_itob hnow]
            · rw [hR]
              decide
          · exact hmono kv hm'' hl
  | revokeIssuerOp a fl =>
      rcases hres : revoke_issuer st ctx a fl with e | st'
      · simp only [applyOp, runOp, hres]
        exact hmono
      · simp only [applyOp, runOp, hres]
        rcases revoke_issuer_ok hres with ⟨-, -, v, hget, hvlen, rfl⟩
        simp only [WFStepB, Bool.and_eq_true, decide_eq_true_eq] at hwf
        obtain ⟨⟨hnow, -⟩, -⟩ := hwf
        intro kv hm hl
        rcases mem_boxPut hm with rfl | hm'
        · simp only at hl ⊢
          rcases hInv (a, v) (boxGet_mem hget) hl with ⟨hv56, hauth, -⟩
          have hauth' : issuerAuth v ≤ c := hauth
          have h8 : (v.take 8).length = 8 := by
            rw [List.length_take]
            omega
          have h32 : ((v.drop 24).take 32).length = 32 := by
            rw [List.length_take, List.length_drop]
            omega
          rcases issuer_fields_concat h8 (itob_length ctx.now)
            (itob_length (btoi fl)) h32 with ⟨hA, hR, -, -, hL⟩
          have hAv : btoi (v.take 8) = issuerAuth v := rfl
          refine ⟨hL, ?_, Or.inr ?_⟩
          · rw [hA, hAv]
            omega
          · rw [hA, hR, hAv, btoi_itob hnow]
            omega
        · exact hmono kv hm' hl
  | reinstateIssuerOp a =>
      rcases hres : reinstate_issuer st ctx a with e | st'
      · simp only [applyOp, runOp, hres]
        exact hmono
      · simp only [applyOp, runOp, hres]
        rcases reinstate_issuer_ok hres with ⟨-, v, hget, hvlen, rfl⟩
        simp only [WFStepB, Bool.and_eq_true, decide_eq_true_eq] at hwf
        obtain ⟨⟨hnow, -⟩, -⟩ := hwf
        intro kv hm hl
        rcases mem_boxPut hm with rfl | hm'
        · simp only
          have h32 : ((v.drop 24).take 32).length = 32 := by
            rw [List.length_take, List.length_drop]
            omega
          rcases issuer_fields_concat (itob_length ctx.now) (itob_length 0)
            (itob_length 0) h32 with ⟨hA, hR, -, -, hL⟩
          refine ⟨hL, ?_, Or.inl ?_⟩
          · rw [hA, btoi_itob hnow]
          · rw [hR]
            decide
        · exact hmono kv hm' hl
  | revokeCredentialOp cid a =>
      simp only [WFStepB, Bool.and_eq_true, decide_eq_true_eq] at hwf
      obtain ⟨⟨hnow, hsender⟩, hcid⟩ := hwf
      rcases hres : revoke_credential st ctx cid a with e | st'
      · simp only [applyOp, runOp, hres]
        exact hmono
      · simp only [applyOp, runOp, hres]
        rcases revoke_credential_ok hres with ⟨-, rfl⟩
        intro kv hm hl
        rcases mem_boxPut hm with rfl | hm'
        · exfalso
          simp only at hl
          rw [credKey_length] at hl
          omega
        · exact hmono kv hm' hl
  | updateMetadataOp a n f u o j =>
      simp only [WFStepB, Bool.and_eq_true, decide_eq_true_eq] at hwf
      obtain ⟨⟨hnow, hsender⟩, haddr⟩ := hwf
      rcases hres : update_metadata st ctx a n f u o j with e | st'
      · simp only [applyOp, runOp, hres]
        exact hmono
      · simp only [applyOp, runOp, hres]
        rcases update_metadata_ok hres with ⟨-, -, -, -, rfl⟩
        intro kv hm hl
        rcases mem_boxPut hm with rfl | hm'
        · exfalso
          simp only at hl
          rw [metaKey_length] at hl
          omega
        · exact hmono kv hm' hl
  | queryIssuerOp a =>
      rw [applyOp_query_issuer]
      exact hmono
  | queryCredentialOp cd =>
      rw [applyOp_query_credential]
      exact hmono
  | queryMetadataOp a =>
      rw [applyOp_query_metadata]
      exact hmono

theorem invOK_trace :
    ∀ (tr : List (Ctx × Op)) (t0 : Nat) (st : RegistryState),
      WFTraceB t0 tr = true → InvOK t0 st →
      ∃ t1, InvOK t1 (execTrace st tr) := by
  intro tr
  induction tr with
  | nil =>
      intro t0 st _ h
      exact ⟨t0, h⟩
  | cons hd tl ih =>
      rcases hd with ⟨c, o⟩
      intro t0 st hwf hInv
      simp only [WFTraceB, Bool.and_eq_true, decide_eq_true_eq] at hwf
      rcases hwf with ⟨⟨hle, hstep⟩, htl⟩
      exact ih c.now (applyOp st c o) htl (invOK_step hInv hle hstep)

/-- The admin context at timestamp 9. -/
def exCtxA9 : Ctx := { sender := exA, now := 9 }

/-- A well-formed trace: add issuer exX at time 5, revoke at time 9. -/
def exTraceW : List (Ctx × Op) :=
  [(exCtxA5, .addIssuerOp exX exName exFull exUrl exOrg exJur),
   (exCtxA9, .revokeIssuerOp exX [1])]

/-- A well-formed trace with equal timestamps: add issuer exX at time 5,
revoke at the same time 5 (a non-decreasing clock permits this). -/
def exTraceEq : List (Ctx × Op) :=
  [(exCtxA5, .addIssuerOp exX exName exFull exUrl exOrg exJur),
   (exCtxA5, .revokeIssuerOp exX [1])]

/-- The issuer value stored for exX after exTraceW. -/
def exValW : Bytes := itob 5 ++ itob 9 ++ itob 1 ++ exA

/-- The issuer value stored for exX after exTraceEq. -/
def exValEq : Bytes := itob 5 ++ itob 5 ++ itob 1 ++ exA

/-- C2 (amended): starting from the initialized registry, under host
timestamps that are monotonically non-decreasing across calls (and uint64,
with 32-byte sender and written-address arguments), every stored issuer
record satisfies revoked_at = 0 OR revoked_at GREATER-OR-EQUAL authorized_at
after each operation completes.  The strict version claimed by the spec
fails: a revocation in the same timestamp as the authorization yields
revoked_at = authorized_at. -/
theorem c2_revoked_at_invariant (creator : Bytes) (t0 : Nat)
    (tr : List (Ctx × Op)) (h : WFTraceB t0 tr = true) :
    ∀ kv ∈ (execTrace (initState creator) tr).boxes, kv.1.length = 32 →
      issuerRev kv.2 = 0 ∨ issuerAuth kv.2 ≤ issuerRev kv.2 := by
  have hinit : InvOK t0 (initState creator) := by
    intro kv hm
    simp [initState] at hm
  rcases invOK_trace tr t0 (initState creator) h hinit with ⟨t1, hI⟩
  intro kv hm hl
  exact (hI kv hm hl).2.2

/-- Witness for C2: on the concrete two-call trace exTraceW the stored
record for exX satisfies the (amended) invariant. -/
theorem c2_revoked_at_invariant_witness :
    boxGet (execTrace (initState exA) exTraceW).boxes exX = some exValW ∧
    (issuerRev exValW = 0 ∨ issuerAuth exValW ≤ issuerRev exValW) :=
  ⟨by decide,
   c2_revoked_at_invariant exA 0 exTraceW (by decide) (exX, exValW) (by decide)
     (by decide)⟩

/-- Counterexample to C2 as stated: with monotonically non-decreasing (here
equal) host timestamps, adding an issuer at time 5 and revoking it at time 5
stores a record with revoked_at = authorized_at = 5, which violates
revoked_at = 0 OR revoked_at STRICTLY-GREATER authorized_at. -/
theorem c2_revoked_at_invariant_counterexample :
    WFTraceB 0 exTraceEq = true ∧
    boxGet (execTrace (initState exA) exTraceEq).boxes exX = some exValEq ∧
    issuerAuth exValEq = 5 ∧ issuerRev exValEq = 5 ∧
    ¬(issuerRev exValEq = 0 ∨ issuerRev exValEq > issuerAuth exValEq) := by
  decide

theorem applyOp_issuer_count (st : RegistryState) (ctx : Ctx) (op : Op) :
    st.issuer_count ≤ (applyOp st ctx op).issuer_count := by
  cases op with
  | addIssuerOp a n f u o j =>
      rcases hres : add_issuer st ctx a n f u o j with e | st'
      · simp only [applyOp, runOp, hres]
        exact Nat.le_refl _
      · simp only [applyOp, runOp, hres]
        rcases add_issuer_ok hres with ⟨-, -, -, -, -, rfl⟩
        simp only
        omega
  | revokeIssuerOp a fl =>
      rcases hres : revoke_issuer st ctx a fl with e | st'
      · simp only [applyOp, runOp, hres]
        exact Nat.le_refl _
      · simp only [applyOp, runOp, hres]
        rcases revoke_issuer_ok hres with ⟨-, -, v, -, -, rfl⟩
        exact Nat.le_refl _
  | reinstateIssuerOp a =>
      rcases hres : reinstate_issuer st ctx a with e | st'
      · simp only [applyOp, runOp, hres]
        exact Nat.le_refl _
      · simp only [applyOp, runOp, hres]
        rcases reinstate_issuer_ok hres with ⟨-, v, -, -, rfl⟩
        exact Nat.le_refl _
  | revokeCredentialOp cid a =>
      rcases hres : revoke_credential st ctx cid a with e | st'
      · simp only [applyOp, runOp, hres]
        exact Nat.le_refl _
      · simp only [applyOp, runOp, hres]
        rcases revoke_credential_ok hres with ⟨-, rfl⟩
        exact Nat.le_refl _
  | updateMetadataOp a n f u o j =>
      rcases hres : update_metadata st ctx a n f u o j with e | st'
      · simp only [applyOp, runOp, hres]
        exact Nat.le_refl _
      · simp only [applyOp, runOp, hres]
        rcases update_metadata_ok hres with ⟨-, -, -, -, rfl⟩
        exact Nat.le_refl _
  | queryIssuerOp a =>
      rw [applyOp_query_issuer]
  | queryCredentialOp cd =>
      rw [applyOp_query_credential]
  | queryMetadataOp a =>
      rw [applyOp_query_metadata]

/-- C8: issuer_count increases by exactly one on every successful
add_issuer, is unchanged by successful revoke_issuer and reinstate_issuer,
and never decreases across any sequence of dispatched calls. -/
theorem c8_issuer_count_monotone :
    (∀ (st : RegistryState) (ctx : Ctx) (a n f u o j : Bytes) (st' : RegistryState),
        add_issuer st ctx a n f u o j = .ok st' →
        st'.issuer_count = st.issuer_count + 1) ∧
    (∀ (st : RegistryState) (ctx : Ctx) (a fl : Bytes) (st' : RegistryState),
        revoke_issuer st ctx a fl = .ok st' →
        st'.issuer_count = st.issuer_count) ∧
    (∀ (st : RegistryState) (ctx : Ctx) (a : Bytes) (st' : RegistryState),
        reinstate_issuer st ctx a = .ok st' →
        st'.issuer_count = st.issuer_count) ∧
    (∀ (st : RegistryState) (tr : List (Ctx × Op)),
        st.issuer_count ≤ (execTrace st tr).issuer_count) := by
  refine ⟨?_, ?_, ?_, ?_⟩
  · intro st ctx a n f u o j st' h
    rcases add_issuer_ok h with ⟨-, -, -, -, -, rfl⟩
    rfl
  · intro st ctx a fl st' h
    rcases revoke_issuer_ok h with ⟨-, -, v, -, -, rfl⟩
    rfl
  · intro st ctx a st' h
    rcases reinstate_issuer_ok h with ⟨-, v, -, -, rfl⟩
    rfl
  · have htr : ∀ (tr : List (Ctx × Op)) (st : RegistryState),
        st.issuer_count ≤ (execTrace st tr).issuer_count := by
      intro tr
      induction tr with
      | nil => intro st; exact Nat.le_refl _
      | cons hd tl ih =>
          intro st
          rcases hd with ⟨c, o⟩
          exact le_trans (applyOp_issuer_count st c o) (ih _)
    intro st tr
    exact htr tr st

/-- Witness for C8: the concrete first add increments the count from 0 to
1, and the count after the concrete trace exTraceW is at least 0. -/
theorem c8_issuer_count_monotone_witness :
    exSt1.issuer_count = (initState exA).issuer_count + 1 ∧
    (initState exA).issuer_count ≤ (execTrace (initState exA) exTraceW).issuer_count :=
  ⟨c8_issuer_count_monotone.1 (initState exA) exCtxA5 exX exName exFull exUrl
      exOrg exJur exSt1 (by rfl),
   c8_issuer_count_monotone.2.2.2 (initState exA) exTraceW⟩

/-- C1: when the caller is the admin or an active issuer, the address has
no existing record, and the metadata passes both validation rules (with the
AVM-guaranteed side conditions: a 32-byte sender, a uint64 timestamp, and
issuer_count + 1 not overflowing uint64), add_issuer succeeds and creates
the issuer record with authorized_at = call time, revoked_at = 0,
revoke_all_prior = 0, vouched_by = caller, creates the metadata record
under the meta-prefixed key, and increments issuer_count by one. -/
theorem c1_add_issuer_creates (st : RegistryState) (ctx : Ctx)
    (a n f u o j : Bytes) (act : Bool)
    (hname : validate_name n = true)
    (hurl : validate_url u = some true)
    (hact : is_active_issuer st.boxes ctx.sender = some act)
    (hauth : ctx.sender = st.admin ∨ act = true)
    (hnew : boxGet st.boxes a = none)
    (hcount : st.issuer_count + 1 < 2 ^ 64)
    (hnow : ctx.now < 2 ^ 64)
    (hsender : ctx.sender.length = 32) :
    ∃ st', add_issuer st ctx a n f u o j = .ok st' ∧
      boxGet st'.boxes a = some (itob ctx.now ++ itob 0 ++ itob 0 ++ ctx.sender) ∧
      issuerAuth (itob ctx.now ++ itob 0 ++ itob 0 ++ ctx.sender) = ctx.now ∧
      issuerRev (itob ctx.now ++ itob 0 ++ itob 0 ++ ctx.sender) = 0 ∧
      issuerFlag (itob ctx.now ++ itob 0 ++ itob 0 ++ ctx.sender) = 0 ∧
      issuerVouchedBy (itob ctx.now ++ itob 0 ++ itob 0 ++ ctx.sender) = ctx.sender ∧
      boxGet st'.boxes (metaKey a) = some (itob ctx.now ++ n ++ f ++ u ++ o ++ j) ∧
      st'.issuer_count = st.issuer_count + 1 ∧
      st'.admin = st.admin := by
  rcases issuer_fields_concat (itob_length ctx.now) (itob_length 0) (itob_length 0)
    hsender with ⟨hA, hR, hF, hV, -⟩
  have hrun : add_issuer st ctx a n f u o j = .ok
      { admin := st.admin, issuer_count := st.issuer_count + 1,
        boxes := boxPut (boxPut st.boxes a (itob ctx.now ++ itob 0 ++ itob 0 ++ ctx.sender)) (metaKey a) (itob ctx.now ++ n ++ f ++ u ++ o ++ j) } := by
    simp only [add_issuer, hname, hurl, hact, hnew, hcount, hauth]
    simp
  refine ⟨_, hrun, ?_, ?_, ?_, ?_, hV, ?_, rfl, rfl⟩
  · rw [show ({ admin := st.admin, issuer_count := st.issuer_count + 1, boxes := boxPut (boxPut st.boxes a (itob ctx.now ++ itob 0 ++ itob 0 ++ ctx.sender)) (metaKey a) (itob ctx.now ++ n ++ f ++ u ++ o ++ j) } : RegistryState).boxes = boxPut (boxPut st.boxes a (itob ctx.now ++ itob 0 ++ itob 0 ++ ctx.sender)) (metaKey a) (itob ctx.now ++ n ++ f ++ u ++ o ++ j) from rfl]
    rw [boxGet_boxPut_ne _ _ (metaKey_ne_self a), boxGet_boxPut_same]
  · rw [hA, btoi_itob hnow]
  · rw [hR]
    decide
  · rw [hF]
    decide
  · exact boxGet_boxPut_same _ _ _

/-- Witness for C1 at a concrete admin call adding issuer exX at time 5. -/
theorem c1_add_issuer_creates_witness :
    ∃ st', add_issuer (initState exA) exCtxA5 exX exName exFull exUrl exOrg exJur = .ok st' ∧
      boxGet st'.boxes exX = some (itob 5 ++ itob 0 ++ itob 0 ++ exA) ∧
      issuerAuth (itob 5 ++ itob 0 ++ itob 0 ++ exA) = 5 ∧
      issuerRev (itob 5 ++ itob 0 ++ itob 0 ++ exA) = 0 ∧
      issuerFlag (itob 5 ++ itob 0 ++ itob 0 ++ exA) = 0 ∧
      issuerVouchedBy (itob 5 ++ itob 0 ++ itob 0 ++ exA) = exA ∧
      boxGet st'.boxes (metaKey exX) = some (itob 5 ++ exName ++ exFull ++ exUrl ++ exOrg ++ exJur) ∧
      st'.issuer_count = (initState exA).issuer_count + 1 ∧
      st'.admin = (initState exA).admin :=
  c1_add_issuer_creates (initState exA) exCtxA5 exX exName exFull exUrl exOrg exJur
    false (by decide) (by decide) (by decide) (by decide) (by decide) (by decide)
    (by decide) (by decide)

/-- C3: a caller different from the admin always gets Unauthorized from
revoke_issuer, update_metadata, and revoke_credential, and the state (in
particular every stored record, byte for byte) is unchanged. -/
theorem c3_non_admin_unauthorized (st : RegistryState) (ctx : Ctx)
    (a fl n f u o j cid a2 : Bytes) (h : ctx.sender ≠ st.admin) :
    revoke_issuer st ctx a fl = .error .unauthorized ∧
    update_metadata st ctx a n f u o j = .error .unauthorized ∧
    revoke_credential st ctx cid a2 = .error .unauthorized ∧
    applyOp st ctx (.revokeIssuerOp a fl) = st ∧
    applyOp st ctx (.updateMetadataOp a n f u o j) = st ∧
    applyOp st ctx (.revokeCredentialOp cid a2) = st := by
  have h1 : revoke_issuer st ctx a fl = .error .unauthorized := by
    unfold revoke_issuer
    rw [if_neg h]
  have h2 : update_metadata st ctx a n f u o j = .error .unauthorized := by
    unfold update_metadata
    rw [if_neg h]
  have h3 : revoke_credential st ctx cid a2 = .error .unauthorized := by
    unfold revoke_credential
    rw [if_neg h]
  refine ⟨h1, h2, h3, ?_, ?_, ?_⟩
  · simp only [applyOp, runOp, h1]
  · simp only [applyOp, runOp, h2]
  · simp only [applyOp, runOp, h3]

/-- Witness for C3: the non-admin exB is rejected on the state exSt1. -/
theorem c3_non_admin_unauthorized_witness :
    revoke_issuer exSt1 { sender := exB, now := 9 } exX [1] = .error .unauthorized ∧
    update_metadata exSt1 { sender := exB, now := 9 } exX exName exFull exUrl exOrg exJur = .error .unauthorized ∧
    revoke_credential exSt1 { sender := exB, now := 9 } exName exX = .error .unauthorized ∧
    applyOp exSt1 { sender := exB, now := 9 } (.revokeIssuerOp exX [1]) = exSt1 ∧
    applyOp exSt1 { sender := exB, now := 9 } (.updateMetadataOp exX exName exFull exUrl exOrg exJur) = exSt1 ∧
    applyOp exSt1 { sender := exB, now := 9 } (.revokeCredentialOp exName exX) = exSt1 :=
  c3_non_admin_unauthorized exSt1 { sender := exB, now := 9 } exX [1] exName exFull
    exUrl exOrg exJur exName exX (by decide)

/-- C5: on an existing record, an admin revoke_issuer followed immediately
by an admin reinstate_issuer leaves a record with revoked_at = 0 and
revoke_all_prior = 0. -/
theorem c5_revoke_then_reinstate (st : RegistryState) (ctx1 ctx2 : Ctx)
    (a fl v : Bytes)
    (h1 : ctx1.sender = st.admin) (h2 : ctx2.sender = st.admin)
    (hex : boxGet st.boxes a = some v) (hlen : 56 ≤ v.length)
    (hfl : fl.length ≤ 8) :
    ∃ st1 st2 w, revoke_issuer st ctx1 a fl = .ok st1 ∧
      reinstate_issuer st1 ctx2 a = .ok st2 ∧
      boxGet st2.boxes a = some w ∧ issuerRev w = 0 ∧ issuerFlag w = 0 := by
  have hext1 : extractB v 0 8 = some (v.take 8) := by
    unfold extractB
    rw [if_pos (show 0 + 8 ≤ v.length by omega)]
    rw [List.drop_zero]
  have hext2 : extractB v 24 32 = some ((v.drop 24).take 32) := by
    unfold extractB
    rw [if_pos (show 24 + 32 ≤ v.length by omega)]
  have hrev : revoke_issuer st ctx1 a fl =
      .ok { st with boxes := boxPut st.boxes a (v.take 8 ++ itob ctx1.now ++ itob (btoi fl) ++ (v.drop 24).take 32) } := by
    simp [revoke_issuer, h1, hex, hext1, hext2, hfl]
  set v1 : Bytes := v.take 8 ++ itob ctx1.now ++ itob (btoi fl) ++ (v.drop 24).take 32 with hv1
  have hv1len : v1.length = 56 := by
    rw [hv1]
    simp only [List.length_append, List.length_take, List.length_drop, itob_length]
    omega
  set st1 : RegistryState := { st with boxes := boxPut st.boxes a v1 } with hst1
  have hget1 : boxGet st1.boxes a = some v1 := boxGet_boxPut_same _ _ _
  have hext3 : extractB v1 24 32 = some ((v1.drop 24).take 32) := by
    unfold extractB
    rw [if_pos (show 24 + 32 ≤ v1.length by omega)]
  have h2' : ctx2.sender = st1.admin := h2
  have hrei : reinstate_issuer st1 ctx2 a =
      .ok { st1 with boxes := boxPut st1.boxes a (itob ctx2.now ++ itob 0 ++ itob 0 ++ (v1.drop 24).take 32) } := by
    simp [reinstate_issuer, h2', hget1, hext3]
  have h32 : ((v1.drop 24).take 32).length = 32 := by
    rw [List.length_take, List.length_drop, hv1len]
    omega
  rcases issuer_fields_concat (itob_length ctx2.now) (itob_length 0) (itob_length 0)
    h32 with ⟨-, hR, hF, -, -⟩
  refine ⟨st1, _, _, hrev, hrei, boxGet_boxPut_same _ _ _, ?_, ?_⟩
  · rw [hR]
    decide
  · rw [hF]
    decide

/-- Witness for C5 on the concrete state exSt1 holding issuer exX. -/
theorem c5_revoke_then_reinstate_witness :
    ∃ st1 st2 w, revoke_issuer exSt1 exCtxA9 exX [1] = .ok st1 ∧
      reinstate_issuer st1 { sender := exA, now := 11 } exX = .ok st2 ∧
      boxGet st2.boxes exX = some w ∧ issuerRev w = 0 ∧ issuerFlag w = 0 :=
  c5_revoke_then_reinstate exSt1 exCtxA9 { sender := exA, now := 11 } exX [1]
    (itob 5 ++ itob 0 ++ itob 0 ++ exA) (by decide) (by decide) (by decide)
    (by decide) (by decide)

/-- C7: the vouched_by bytes of an existing issuer record are unchanged,
byte for byte, by any successful revoke_issuer or reinstate_issuer on it. -/
theorem c7_vouched_by_immutable (st : RegistryState) (ctx : Ctx)
    (a fl v : Bytes) (hex : boxGet st.boxes a = some v) :
    (∀ st', revoke_issuer st ctx a fl = .ok st' →
      ∃ v', boxGet st'.boxes a = some v' ∧ issuerVouchedBy v' = issuerVouchedBy v) ∧
    (∀ st', reinstate_issuer st ctx a = .ok st' →
      ∃ v', boxGet st'.boxes a = some v' ∧ issuerVouchedBy v' = issuerVouchedBy v) := by
  constructor
  · intro st' h
    rcases revoke_issuer_ok h with ⟨-, -, v0, hget0, hlen0, rfl⟩
    rw [hex] at hget0
    injection hget0 with hv0
    subst hv0
    have h8 : (v.take 8).length = 8 := by
      rw [List.length_take]
      omega
    have h32 : ((v.drop 24).take 32).length = 32 := by
      rw [List.length_take, List.length_drop]
      omega
    rcases issuer_fields_concat h8 (itob_length ctx.now) (itob_length (btoi fl))
      h32 with ⟨-, -, -, hV, -⟩
    exact ⟨_, boxGet_boxPut_same _ _ _, hV⟩
  · intro st' h
    rcases reinstate_issuer_ok h with ⟨-, v0, hget0, hlen0, rfl⟩
    rw [hex] at hget0
    injection hget0 with hv0
    subst hv0
    have h32 : ((v.drop 24).take 32).length = 32 := by
      rw [List.length_take, List.length_drop]
      omega
    rcases issuer_fields_concat (itob_length ctx.now) (itob_length 0) (itob_length 0)
      h32 with ⟨-, -, -, hV, -⟩
    exact ⟨_, boxGet_boxPut_same _ _ _, hV⟩

/-- Witness for C7: applying the revoke branch on the concrete state. -/
theorem c7_vouched_by_immutable_witness :
    ∃ v', boxGet (applyOp exSt1 exCtxA9 (.revokeIssuerOp exX [1])).boxes exX = some v' ∧
      issuerVouchedBy v' = issuerVouchedBy (itob 5 ++ itob 0 ++ itob 0 ++ exA) :=
  (c7_vouched_by_immutable exSt1 exCtxA9 exX [1]
      (itob 5 ++ itob 0 ++ itob 0 ++ exA) (by decide)).1
    (applyOp exSt1 exCtxA9 (.revokeIssuerOp exX [1])) (by rfl)

/-- C10: reinstate_issuer called by the admin on a record that is currently
active (revoked_at = 0) succeeds anyway and overwrites authorized_at with
the call time, discarding the original authorization timestamp. -/
theorem c10_reinstate_overwrites_authorized_at (st : RegistryState) (ctx : Ctx)
    (a v : Bytes)
    (hadmin : ctx.sender = st.admin) (hex : boxGet st.boxes a = some v)
    (hlen : 56 ≤ v.length) (hactive : issuerRev v = 0) (hnow : ctx.now < 2 ^ 64) :
    ∃ st', reinstate_issuer st ctx a = .ok st' ∧
      boxGet st'.boxes a = some (itob ctx.now ++ itob 0 ++ itob 0 ++ (v.drop 24).take 32) ∧
      issuerAuth (itob ctx.now ++ itob 0 ++ itob 0 ++ (v.drop 24).take 32) = ctx.now ∧
      issuerRev (itob ctx.now ++ itob 0 ++ itob 0 ++ (v.drop 24).take 32) = 0 := by
  have hext : extractB v 24 32 = some ((v.drop 24).take 32) := by
    unfold extractB
    rw [if_pos (show 24 + 32 ≤ v.length by omega)]
  have h32 : ((v.drop 24).take 32).length = 32 := by
    rw [List.length_take, List.length_drop]
    omega
  rcases issuer_fields_concat (itob_length ctx.now) (itob_length 0) (itob_length 0)
    h32 with ⟨hA, hR, -, -, -⟩
  have hrun : reinstate_issuer st ctx a =
      .ok { st with boxes := boxPut st.boxes a (itob ctx.now ++ itob 0 ++ itob 0 ++ (v.drop 24).take 32) } := by
    simp [reinstate_issuer, hadmin, hex, hext]
  refine ⟨_, hrun, boxGet_boxPut_same _ _ _, ?_, ?_⟩
  · rw [hA, btoi_itob hnow]
  · rw [hR]
    decide

/-- Witness for C10: reinstating the active issuer exX at time 9 changes
its authorized_at from 5 to 9. -/
theorem c10_reinstate_overwrites_authorized_at_witness :
    ∃ st', reinstate_issuer exSt1 exCtxA9 exX = .ok st' ∧
      boxGet st'.boxes exX = some (itob 9 ++ itob 0 ++ itob 0 ++ (((itob 5 ++ itob 0 ++ itob 0 ++ exA) : Bytes).drop 24).take 32) ∧
      issuerAuth (itob 9 ++ itob 0 ++ itob 0 ++ (((itob 5 ++ itob 0 ++ itob 0 ++ exA) : Bytes).drop 24).take 32) = 9 ∧
      issuerRev (itob 9 ++ itob 0 ++ itob 0 ++ (((itob 5 ++ itob 0 ++ itob 0 ++ exA) : Bytes).drop 24).take 32) = 0 :=
  c10_reinstate_overwrites_authorized_at exSt1 exCtxA9 exX
    (itob 5 ++ itob 0 ++ itob 0 ++ exA) (by decide) (by decide) (by decide)
    (by decide) (by decide)

/-- A 2-byte name, too short for the name rule. -/
def exShortName : Bytes := [97, 98]

/-- C4 (amended): add_issuer on an address that already has a record always
fails and performs no store mutation; the failure is AlreadyExists whenever
the metadata passes validation and the caller passes the authorization
check (those checks run first in the source, so a call that also fails
validation or authorization reports that earlier error instead). -/
theorem c4_add_issuer_existing_fails (st : RegistryState) (ctx : Ctx)
    (a n f u o j v : Bytes) (hex : boxGet st.boxes a = some v) :
    (∃ e, add_issuer st ctx a n f u o j = .error e) ∧
    applyOp st ctx (.addIssuerOp a n f u o j) = st ∧
    (validate_name n = true → validate_url u = some true →
      ∀ act, is_active_issuer st.boxes ctx.sender = some act →
        (ctx.sender = st.admin ∨ act = true) →
        add_issuer st ctx a n f u o j = .error .alreadyExists) := by
  have herr : ∃ e, add_issuer st ctx a n f u o j = .error e := by
    rcases hres : add_issuer st ctx a n f u o j with e | st'
    · exact ⟨e, rfl⟩
    · rcases add_issuer_ok hres with ⟨-, -, -, hnew, -, -⟩
      rw [hex] at hnew
      exact absurd hnew (by simp)
  rcases herr with ⟨e, he⟩
  refine ⟨⟨e, he⟩, ?_, ?_⟩
  · simp only [applyOp, runOp, he]
  · intro hname hurl act hact hauth
    simp [add_issuer, hname, hurl, hact, hauth, hex]

/-- Witness for C4 on the concrete state exSt1 that holds issuer exX. -/
theorem c4_add_issuer_existing_fails_witness :
    (∃ e, add_issuer exSt1 exCtxA9 exX exName exFull exUrl exOrg exJur = .error e) ∧
    applyOp exSt1 exCtxA9 (.addIssuerOp exX exName exFull exUrl exOrg exJur) = exSt1 ∧
    add_issuer exSt1 exCtxA9 exX exName exFull exUrl exOrg exJur = .error .alreadyExists := by
  have h := c4_add_issuer_existing_fails exSt1 exCtxA9 exX exName exFull exUrl
    exOrg exJur (itob 5 ++ itob 0 ++ itob 0 ++ exA) (by decide)
  exact ⟨h.1, h.2.1, h.2.2 (by decide) (by decide) false (by decide) (by decide)⟩

/-- Counterexample to C4 as stated: a call on an address with an existing
record but a 2-byte name fails with the name validation error, not with
AlreadyExists, because validation runs before the existence check. -/
theorem c4_add_issuer_existing_fails_counterexample :
    boxGet exSt1.boxes exX = some (itob 5 ++ itob 0 ++ itob 0 ++ exA) ∧
    add_issuer exSt1 exCtxA9 exX exShortName exFull exUrl exOrg exJur =
      .error .validationFailedName ∧
    Err.validationFailedName ≠ Err.alreadyExists :=
  ⟨by decide, rfl, by decide⟩

/-- C6 (amended): the three query operations never mutate state and return
the stored record when it is present; on an absent record the primary
PyTeal variant rejects the call (an error to the caller), while the Beaker
variant returns the explicit empty byte string. -/
theorem c6_query_behavior (boxes : BoxStore) (addr cid : Bytes) :
    (∀ v, boxGet boxes addr = some v →
        query_issuer boxes addr = .ok v ∧ Beaker.query_issuer boxes addr = v) ∧
    (boxGet boxes addr = none →
        query_issuer boxes addr = .error .rejected ∧
        Beaker.query_issuer boxes addr = []) ∧
    (∀ v, boxGet boxes (credKey cid) = some v →
        query_credential boxes cid = .ok v ∧ Beaker.query_credential boxes cid = v) ∧
    (boxGet boxes (credKey cid) = none →
        query_credential boxes cid = .error .rejected ∧
        Beaker.query_credential boxes cid = []) ∧
    (∀ v, boxGet boxes (metaKey addr) = some v →
        query_metadata boxes addr = .ok v ∧ Beaker.query_metadata boxes addr = v) ∧
    (boxGet boxes (metaKey addr) = none →
        query_metadata boxes addr = .error .rejected ∧
        Beaker.query_metadata boxes addr = []) := by
  refine ⟨?_, ?_, ?_, ?_, ?_, ?_⟩ <;> intro h
  · intro hv
    simp [query_issuer, Beaker.query_issuer, hv]
  · simp [query_issuer, Beaker.query_issuer, h]
  · intro hv
    simp [query_credential, Beaker.query_credential, hv]
  · simp [query_credential, Beaker.query_credential, h]
  · intro hv
    simp [query_metadata, Beaker.query_metadata, hv]
  · simp [query_metadata, Beaker.query_metadata, h]

/-- Witness for C6: the present and absent cases on the concrete state. -/
theorem c6_query_behavior_witness :
    (query_issuer exSt1.boxes exX = .ok (itob 5 ++ itob 0 ++ itob 0 ++ exA) ∧
      Beaker.query_issuer exSt1.boxes exX = itob 5 ++ itob 0 ++ itob 0 ++ exA) ∧
    (query_issuer exSt1.boxes exB = .error .rejected ∧
      Beaker.query_issuer exSt1.boxes exB = []) :=
  ⟨(c6_query_behavior exSt1.boxes exX exName).1 _ (by decide),
   (c6_query_behavior exSt1.boxes exB exName).2.1 (by decide)⟩

/-- Counterexample to C6 as stated: on the empty registry the primary
variant's query_issuer fails the caller with a rejection on an absent
record, instead of returning an explicit not-found result; the Beaker
variant returns the empty byte string. -/
theorem c6_query_behavior_counterexample :
    query_issuer (initState exA).boxes exX = .error .rejected ∧
    Beaker.query_issuer (initState exA).boxes exX = [] :=
  ⟨rfl, rfl⟩

/-- C9 (amended): the two validation rules are the pure predicates
validate_name and validate_url; validate_name accepts exactly names of
length 3 to 64; validate_url cleanly rejects (so the call reports the URL
validation error) exactly the URLs of length at least 8 that miss the
http/https prefix or the 10..256 length window, while URLs shorter than
8 bytes abort the URL check itself with a substring range error; a failed
name validation makes add_issuer (and, for an admin caller, update_metadata)
fail with the name error, a failed URL validation with the URL error, and
in every such case the state is unchanged. -/
theorem c9_validation_rules (st : RegistryState) (ctx : Ctx)
    (a n f u o j : Bytes) :
    (validate_name n = true ↔ 3 ≤ n.length ∧ n.length ≤ 64) ∧
    (validate_url u = some false ↔ 8 ≤ u.length ∧
        ¬((u.take 7 = httpBytes ∨ u.take 8 = httpsBytes) ∧
          (10 ≤ u.length ∧ u.length ≤ 256))) ∧
    (validate_url u = none ↔ u.length < 8) ∧
    (validate_name n = false →
        add_issuer st ctx a n f u o j = .error .validationFailedName ∧
        applyOp st ctx (.addIssuerOp a n f u o j) = st ∧
        (ctx.sender = st.admin →
          update_metadata st ctx a n f u o j = .error .validationFailedName ∧
          applyOp st ctx (.updateMetadataOp a n f u o j) = st)) ∧
    (validate_name n = true → validate_url u = some false →
        add_issuer st ctx a n f u o j = .error .validationFailedUrl ∧
        applyOp st ctx (.addIssuerOp a n f u o j) = st ∧
        (ctx.sender = st.admin →
          update_metadata st ctx a n f u o j = .error .validationFailedUrl ∧
          applyOp st ctx (.updateMetadataOp a n f u o j) = st)) := by
  refine ⟨?_, ?_, ?_, ?_, ?_⟩
  · simp [validate_name]
  · by_cases hlen : 8 ≤ u.length
    · have h7 : extractB u 0 7 = some (u.take 7) := by
        unfold extractB
        rw [if_pos (by omega), List.drop_zero]
      have h8 : extractB u 0 8 = some (u.take 8) := by
        unfold extractB
        rw [if_pos (by omega), List.drop_zero]
      simp only [validate_url, h7, h8, Option.some.injEq]
      constructor
      · intro hb
        refine ⟨hlen, ?_⟩
        rintro ⟨hpre, hl1, hl2⟩
        rw [Bool.and_eq_false_iff] at hb
        rcases hb with hb | hb
        · rw [Bool.or_eq_false_iff] at hb
          rcases hpre with hp | hp
          · rw [hp] at hb
            simp at hb
          · rw [hp] at hb
            simp at hb
        · rw [Bool.and_eq_false_iff] at hb
          rcases hb with hb | hb <;> simp at hb <;> omega
      · rintro ⟨-, hng⟩
        rw [Bool.and_eq_false_iff]
        by_cases hpre : u.take 7 = httpBytes ∨ u.take 8 = httpsBytes
        · right
          rw [Bool.and_eq_false_iff]
          by_cases hl1 : 10 ≤ u.length
          · right
            simp only [decide_eq_false_iff_not]
            intro hl2
            exact hng ⟨hpre, hl1, hl2⟩
          · left
            simp only [decide_eq_false_iff_not]
            exact hl1
        · left
          rw [Bool.or_eq_false_iff]
          constructor <;> simp only [decide_eq_false_iff_not]
          · intro hp
            exact hpre (Or.inl hp)
          · intro hp
            exact hpre (Or.inr hp)
    · by_cases h7l : 7 ≤ u.length
      · have h7 : extractB u 0 7 = some (u.take 7) := by
          unfold extractB
          rw [if_pos (by omega), List.drop_zero]
        have h8 : extractB u 0 8 = none := by
          unfold extractB
          rw [if_neg (by omega)]
        simp [validate_url, h7, h8, hlen]
      · have h7 : extractB u 0 7 = none := by
          unfold extractB
          rw [if_neg (by omega)]
        simp [validate_url, h7, hlen]
  · by_cases hlen : 8 ≤ u.length
    · have h7 : extractB u 0 7 = some (u.take 7) := by
        unfold extractB
        rw [if_pos (by omega), List.drop_zero]
      have h8 : extractB u 0 8 = some (u.take 8) := by
        unfold extractB
        rw [if_pos (by omega), List.drop_zero]
      simp [validate_url, h7, h8]
      omega
    · by_cases h7l : 7 ≤ u.length
      · have h7 : extractB u 0 7 = some (u.take 7) := by
          unfold extractB
          rw [if_pos (by omega), List.drop_zero]
        have h8 : extractB u 0 8 = none := by
          unfold extractB
          rw [if_neg (by omega)]
        simp [validate_url, h7, h8]
        omega
      · have h7 : extractB u 0 7 = none := by
          unfold extractB
          rw [if_neg (by omega)]
        simp [validate_url, h7]
        omega
  · intro hname
    have hadd : add_issuer st ctx a n f u o j = .error .validationFailedName := by
      simp [add_issuer, hname]
    refine ⟨hadd, by simp only [applyOp, runOp, hadd], ?_⟩
    intro hadmin
    have hupd : update_metadata st ctx a n f u o j = .error .validationFailedName := by
      simp [update_metadata, hadmin, hname]
    exact ⟨hupd, by simp only [applyOp, runOp, hupd]⟩
  · intro hname hurl
    have hadd : add_issuer st ctx a n f u o j = .error .validationFailedUrl := by
      simp [add_issuer, hname, hurl]
    refine ⟨hadd, by simp only [applyOp, runOp, hadd], ?_⟩
    intro hadmin
    have hupd : update_metadata st ctx a n f u o j = .error .validationFailedUrl := by
      simp [update_metadata, hadmin, hname, hurl]
    exact ⟨hupd, by simp only [applyOp, runOp, hupd]⟩

/-- Witness for C9: the concrete 2-byte name is rejected with the name
rule by add_issuer with no state change. -/
theorem c9_validation_rules_witness :
    add_issuer exSt1 exCtxA9 exB exShortName exFull exUrl exOrg exJur =
      .error .validationFailedName ∧
    applyOp exSt1 exCtxA9 (.addIssuerOp exB exShortName exFull exUrl exOrg exJur) = exSt1 := by
  have h := (c9_validation_rules exSt1 exCtxA9 exB exShortName exFull exUrl exOrg
    exJur).2.2.2.1 (by decide)
  exact ⟨h.1, h.2.1⟩

/-- Counterexample to C9 as stated: the 7-byte URL consisting of exactly
the http prefix has length outside 10..256, so the claim says the call
fails with ValidationFailed naming the URL rule, but the program aborts
with a substring range error inside the URL check instead; and a non-admin
update_metadata with a bad name fails with Unauthorized, not
ValidationFailed, because the admin check runs first. -/
theorem c9_validation_rules_counterexample :
    httpBytes.length = 7 ∧
    add_issuer exSt1 exCtxA9 exB exName exFull httpBytes exOrg exJur =
      .error .rangeError ∧
    Err.rangeError ≠ Err.validationFailedName ∧
    Err.rangeError ≠ Err.validationFailedUrl ∧
    update_metadata exSt1 { sender := exB, now := 9 } exX exShortName exFull exUrl
      exOrg exJur = .error .unauthorized ∧
    Err.unauthorized ≠ Err.validationFailedName :=
  ⟨by decide, rfl, by decide, by decide, rfl, by decide⟩
